import Mathlib

/-!
Shallow embedding of the Port-Auditor-Pro batch verification pipeline:
the data model (src/types.ts), the oracle client `matchPortsBatch`
(src/services/geminiService.ts) and the orchestrator `processPorts`
(src/App.tsx), together with proofs settling the spec claims.

External effects are modelled explicitly:
  * the raw oracle call `ai.models.generateContent` is a parameter
    `gc : List String → Except String GenContentResult` (an exception is
    `Except.error` carrying the error message, `''` standing for a
    missing message);
  * `JSON.parse` is a parameter `pj : String → Option (List RawMatch)`
    (`none` models a parse exception);
  * React state (`ports`, `progress`) is threaded explicitly: successive
    `setPorts(prev => …)` updater calls are applied in order to the
    current list.
-/

namespace PortAuditor

/-- Status literals of `PortData.status` in src/types.ts:
'pending' | 'processing' | 'completed' | 'error'. -/
inductive PortStatus where
  | pending
  | processing
  | completed
  | error
deriving DecidableEq, BEq, Repr

/-- `PortSource` of src/types.ts. -/
structure PortSource where
  uri : String
  title : String
deriving DecidableEq, Repr

/-- `PortData` of src/types.ts. The optional `sources?` field is `none`
when absent (records created by `parseInput` carry no `sources`). -/
structure PortData where
  originalName : String
  querySentence : String
  portCode : String
  chineseName : String
  countryName : String
  remarks : String
  status : PortStatus
  sources : Option (List PortSource) := none
deriving DecidableEq, Repr

/-- One element of the JSON array that `JSON.parse` yields from the
oracle's text payload (the response schema of `matchPortsBatch` requires
exactly these five string fields). -/
structure RawMatch where
  originalName : String
  portCode : String
  chineseName : String
  countryName : String
  remarks : String
deriving DecidableEq, Repr

/-- `GeminiPortResponse` of src/types.ts; `matchPortsBatch` always sets
`sources`, so it is not optional here. -/
structure GeminiPortResponse where
  originalName : String
  portCode : String
  chineseName : String
  countryName : String
  remarks : String
  sources : List PortSource
deriving DecidableEq, Repr

/-- The `web` member of a grounding chunk: both `uri` and `title` may be
absent. -/
structure WebInfo where
  uri : Option String
  title : Option String
deriving DecidableEq, Repr

/-- A grounding chunk of the oracle response
(`response.candidates?.[0]?.groundingMetadata?.groundingChunks` element);
only the `web` member is read by the code. -/
structure GroundingChunk where
  web : Option WebInfo
deriving DecidableEq, Repr

/-- The part of the `generateContent` response that `matchPortsBatch`
reads: the optional grounding-chunk list (the whole optional chain
`candidates?.[0]?.groundingMetadata?.groundingChunks` collapsed into one
option) and the optional text payload. -/
structure GenContentResult where
  groundingChunks : Option (List GroundingChunk)
  text : Option String
deriving DecidableEq, Repr

/-- JavaScript `toLowerCase` restricted to the character-wise lowering
that `Char.toLower` provides; both sides of every comparison in the code
go through it, so the comparison stays case-insensitive. -/
def lowerName (s : String) : String :=
  ⟨s.data.map Char.toLower⟩

/-- Truthiness check `chunk.web && chunk.web.uri` followed by the push of
`{ uri, title: chunk.web.title || 'Source' }` in
src/services/geminiService.ts lines 70-77: `none` when the chunk is
skipped. -/
def chunkToSource (c : GroundingChunk) : Option PortSource :=
  match c.web with
  | none => none
  | some w =>
    match w.uri with
    | none => none
    | some u =>
      if u = "" then none
      else some { uri := u,
                  title := match w.title with
                           | none => "Source"
                           | some t => if t = "" then "Source" else t }

/-- Source extraction loop of src/services/geminiService.ts lines 67-78:
iterate over the grounding chunks (an absent list contributes nothing)
and collect the sources of the chunks that pass the uri check. -/
def extractSources (chunks : Option (List GroundingChunk)) : List PortSource :=
  (chunks.getD []).filterMap chunkToSource

/-- `matchPortsBatch` of src/services/geminiService.ts: call the oracle
(`gc`), extract the shared source list, then parse the text payload and
attach `sources.slice(0, 3)` to every parsed record. An empty or absent
payload and a parse failure are thrown (`Except.error`), as is any
transport failure of the call itself. -/
def matchPortsBatch (gc : List String → Except String GenContentResult)
    (pj : String → Option (List RawMatch)) (ports : List String) :
    Except String (List GeminiPortResponse) :=
  match gc ports with
  | .error e => .error e
  | .ok response =>
    let sources : List PortSource := extractSources response.groundingChunks
    match response.text with
    | none => .error "Empty response from AI"
    | some text =>
      if text = "" then .error "Empty response from AI"
      else
        match pj text with
        | none => .error "Failed to parse Gemini response"
        | some results =>
          .ok (results.map fun r =>
            { originalName := r.originalName
              portCode := r.portCode
              chineseName := r.chineseName
              countryName := r.countryName
              remarks := r.remarks
              sources := sources.take 3 })

/-- `BATCH_SIZE` of src/App.tsx line 23. -/
def BATCH_SIZE : Nat := 5

/-- Eligibility filter of src/App.tsx line 79:
`p.status === 'pending' || p.status === 'error'`. -/
def eligible (p : PortData) : Bool :=
  p.status == PortStatus.pending || p.status == PortStatus.error

/-- Per-record body of the first `setPorts` updater (src/App.tsx lines
93-95): a record whose `originalName` is among the batch names becomes
'processing'; note the membership test is by name, not by position. -/
def procOne (batchNames : List String) (p : PortData) : PortData :=
  if batchNames.contains p.originalName then { p with status := .processing } else p

/-- First `setPorts` updater applied to the whole ledger. -/
def markProcessing (batchNames : List String) (ports : List PortData) : List PortData :=
  ports.map (procOne batchNames)

/-- Per-record body of the success `setPorts` updater (src/App.tsx lines
100-114): find the first oracle result whose `originalName` equals the
record's case-insensitively and, when found, copy its fields and complete
the record. -/
def reconcileOne (results : List GeminiPortResponse) (p : PortData) : PortData :=
  match results.find? (fun r => lowerName r.originalName == lowerName p.originalName) with
  | some matched =>
    { p with portCode := matched.portCode
             chineseName := matched.chineseName
             countryName := matched.countryName
             remarks := matched.remarks
             sources := some matched.sources
             status := .completed }
  | none => p

/-- Success-path `setPorts` updater applied to the whole ledger. -/
def reconcile (results : List GeminiPortResponse) (ports : List PortData) : List PortData :=
  ports.map (reconcileOne results)

/-- Remarks written on batch failure: `error?.message || '验证失败'`
(src/App.tsx line 118), the default standing in for an absent or empty
message. -/
def errMsg (m : String) : String :=
  if m = "" then "验证失败" else m

/-- Per-record body of the catch-branch `setPorts` updater (src/App.tsx
lines 117-119): a record whose `originalName` is among the batch names
becomes 'error' with its remarks overwritten. -/
def failOne (batchNames : List String) (m : String) (p : PortData) : PortData :=
  if batchNames.contains p.originalName then
    { p with status := .error, remarks := errMsg m }
  else p

/-- Catch-branch `setPorts` updater applied to the whole ledger. -/
def markFailed (batchNames : List String) (m : String) (ports : List PortData) : List PortData :=
  ports.map (failOne batchNames m)

/-- Fuel-indexed slicing of the eligible snapshot into consecutive groups
of `BATCH_SIZE`, mirroring the loop
`for (let i = 0; i < totalToProcess; i += BATCH_SIZE)` with
`batch = pendingPorts.slice(i, i + BATCH_SIZE)`; the fuel makes the
recursion structural (a fuel of `l.length` always suffices since every
step consumes at least one element). -/
def toBatchesAux : Nat → List PortData → List (List PortData)
  | 0, _ => []
  | _, [] => []
  | fuel + 1, l@(_ :: _) => l.take BATCH_SIZE :: toBatchesAux fuel (l.drop BATCH_SIZE)

/-- The batch list of one run: the eligible snapshot cut into consecutive
groups of `BATCH_SIZE` in ledger order. -/
def toBatches (l : List PortData) : List (List PortData) :=
  toBatchesAux l.length l

/-- Progress state `{ current, total }` of src/App.tsx line 37. -/
structure Progress where
  current : Nat
  total : Nat
deriving DecidableEq, Repr

/-- Loop body of `processPorts` (src/App.tsx lines 89-124), one batch per
step: mark the batch 'processing' by name, call the oracle client
(`call idx batchNames` modelling `matchPortsBatch(batchNames, config)`
for the `idx`-th batch of the run), reconcile on success or mark the
batch failed on exception, and advance `completedCount` by the batch's
size unconditionally. Returns the final ledger and `completedCount`. -/
def processBatches (call : Nat → List String → Except String (List GeminiPortResponse)) :
    List (List PortData) → Nat → List PortData → Nat → List PortData × Nat
  | [], _, ports, cc => (ports, cc)
  | b :: rest, idx, ports, cc =>
    let batchNames := b.map (·.originalName)
    let ports1 := markProcessing batchNames ports
    let ports2 :=
      match call idx batchNames with
      | .ok results => reconcile results ports1
      | .error m => markFailed batchNames m ports1
    processBatches call rest (idx + 1) ports2 (cc + b.length)

/-- `processPorts` of src/App.tsx lines 78-127 as a state transformer on
`(ports, progress)`: snapshot the eligible records, return unchanged when
none exist, otherwise run the batches and report the final progress
(`total` set once at the start, `current` equal to the accumulated
`completedCount`). -/
def processPorts (call : Nat → List String → Except String (List GeminiPortResponse))
    (ports : List PortData) (progress : Progress) : List PortData × Progress :=
  let pendingPorts := ports.filter eligible
  if pendingPorts.length = 0 then (ports, progress)
  else
    let res := processBatches call (toBatches pendingPorts) 0 ports 0
    (res.1, { current := res.2, total := pendingPorts.length })

/-! Concrete fixtures used by the witnesses and counterexamples below. -/

/-- Ledger record as created by `parseInput` (src/App.tsx lines 55-65),
with a given status for scenario setup. -/
def mkRecord (name : String) (st : PortStatus) : PortData :=
  { originalName := name
    querySentence := name ++ "五位港口代码、港口中文名称和所属国家"
    portCode := ""
    chineseName := ""
    countryName := ""
    remarks := ""
    status := st }

/-- Oracle client that always throws (a transport failure) with message
"boom". -/
def alwaysFailCall : Nat → List String → Except String (List GeminiPortResponse) :=
  fun _ _ => .error "boom"

/-- Oracle client that always succeeds with an empty match list. -/
def emptyOkCall : Nat → List String → Except String (List GeminiPortResponse) :=
  fun _ _ => .ok []

/-- Ledger with two records sharing `originalName` "A": the first already
completed with populated result fields, the second pending. -/
def dupLedger : List PortData :=
  [{ mkRecord "A" .completed with
      portCode := "USLAX", chineseName := "洛杉矶",
      countryName := "美国", remarks := "verified" },
   mkRecord "A" .pending]

/-- Six pending records: with `BATCH_SIZE = 5` the run has two batches,
and the name "p0" occurs in both batch 0 and batch 1. -/
def sixLedger : List PortData :=
  [mkRecord "p0" .pending, mkRecord "p1" .pending, mkRecord "p2" .pending,
   mkRecord "p3" .pending, mkRecord "p4" .pending, mkRecord "p0" .pending]

/-- Oracle client: the call for batch 0 throws "boom", later batches
succeed with an empty match list. -/
def splitCall : Nat → List String → Except String (List GeminiPortResponse) :=
  fun i _ => if i = 0 then .error "boom" else .ok []

/-- Ledger holding a single completed record, so no record is eligible. -/
def completedLedger : List PortData :=
  [{ mkRecord "B" .completed with portCode := "CNSWA" }]

/-- Oracle match for "SHEKOU" (uppercase response to a lowercase query). -/
def shekouResp : GeminiPortResponse :=
  { originalName := "SHEKOU", portCode := "CNSHK", chineseName := "蛇口",
    countryName := "中国", remarks := "verified via UNECE", sources := [] }

/-- Oracle match for an unrelated name, placed before the SHEKOU match. -/
def otherResp : GeminiPortResponse :=
  { originalName := "USLAX", portCode := "USLAX", chineseName := "洛杉矶",
    countryName := "美国", remarks := "ok", sources := [] }

/-- Duplicate oracle match for "Shekou" with different data, placed after
the first SHEKOU match to exercise first-match-wins. -/
def shekouDupResp : GeminiPortResponse :=
  { originalName := "Shekou", portCode := "XXXXX", chineseName := "重复",
    countryName := "中国", remarks := "duplicate", sources := [] }

/-- Eight grounding chunks of which exactly seven pass the uri check
(the third has no `web`, the fourth has no uri). -/
def sevenChunks : List GroundingChunk :=
  [{ web := some { uri := some "https://a", title := some "A" } },
   { web := some { uri := some "https://b", title := none } },
   { web := none },
   { web := some { uri := none, title := some "skipped" } },
   { web := some { uri := some "https://c", title := some "" } },
   { web := some { uri := some "https://d", title := some "D" } },
   { web := some { uri := some "https://e", title := some "E" } },
   { web := some { uri := some "https://f", title := some "F" } },
   { web := some { uri := some "https://g", title := some "G" } }]

/-- Raw oracle reply value carrying the seven-source grounding metadata
and a parseable payload. -/
def resp8 : GenContentResult :=
  { groundingChunks := some sevenChunks, text := some "payload" }

/-- Raw oracle reply carrying the seven-source grounding metadata and a
parseable payload. -/
def sevenGC : List String → Except String GenContentResult :=
  fun _ => .ok resp8

/-- The single parsed match of the seven-source reply after
`matchPortsBatch` attaches the truncated shared source list. -/
def shekouOk : GeminiPortResponse :=
  { originalName := "SHEKOU", portCode := "CNSHK", chineseName := "蛇口",
    countryName := "中国", remarks := "ok",
    sources := (extractSources (some sevenChunks)).take 3 }

/-- Result list of `matchPortsBatch sevenGC wPJ ["shekou"]`. -/
def rs8 : List GeminiPortResponse := [shekouOk]

/-- Parse function recognising only the fixed payload "payload" and
yielding one SHEKOU match. -/
def wPJ : String → Option (List RawMatch) :=
  fun t =>
    if t = "payload" then
      some [{ originalName := "SHEKOU", portCode := "CNSHK",
              chineseName := "蛇口", countryName := "中国", remarks := "ok" }]
    else none

/-- Raw oracle reply whose text payload is absent. -/
def emptyTextGC : List String → Except String GenContentResult :=
  fun _ => .ok { groundingChunks := none, text := none }

/-- Orchestrator batch call built from `matchPortsBatch` over the
empty-payload reply, exactly as `processPorts` invokes it. -/
def badCall : Nat → List String → Except String (List GeminiPortResponse) :=
  fun _ ns => matchPortsBatch emptyTextGC wPJ ns

/-! Helper lemmas about the embedded operations. -/

theorem procOne_of_not_mem (ns : List String) (p : PortData)
    (h : p.originalName ∉ ns) : procOne ns p = p := by
  simp [procOne, List.contains, h]

theorem failOne_of_not_mem (ns : List String) (m : String) (p : PortData)
    (h : p.originalName ∉ ns) : failOne ns m p = p := by
  simp [failOne, List.contains, h]

theorem procOne_of_mem (ns : List String) (p : PortData)
    (h : ns.contains p.originalName = true) :
    procOne ns p = { p with status := .processing } := by
  simp only [procOne]
  rw [if_pos h]

theorem failOne_of_mem (ns : List String) (m : String) (p : PortData)
    (h : ns.contains p.originalName = true) :
    failOne ns m p = { p with status := .error, remarks := errMsg m } := by
  simp only [failOne]
  rw [if_pos h]

theorem reconcileOne_of_no_match (rs : List GeminiPortResponse) (p : PortData)
    (h : ∀ r ∈ rs, lowerName r.originalName ≠ lowerName p.originalName) :
    reconcileOne rs p = p := by
  have hfind : rs.find? (fun r => lowerName r.originalName == lowerName p.originalName) = none := by
    rw [List.find?_eq_none]
    intro r hr
    simpa using h r hr
  simp [reconcileOne, hfind]

theorem processBatches_cons_ok
    (call : Nat → List String → Except String (List GeminiPortResponse))
    (b : List PortData) (rest : List (List PortData)) (idx : Nat)
    (ports : List PortData) (cc : Nat) (rs : List GeminiPortResponse)
    (hc : call idx (b.map (·.originalName)) = .ok rs) :
    processBatches call (b :: rest) idx ports cc
      = processBatches call rest (idx + 1)
          (reconcile rs (markProcessing (b.map (·.originalName)) ports)) (cc + b.length) := by
  simp [processBatches, hc]

theorem processBatches_cons_error
    (call : Nat → List String → Except String (List GeminiPortResponse))
    (b : List PortData) (rest : List (List PortData)) (idx : Nat)
    (ports : List PortData) (cc : Nat) (m : String)
    (hc : call idx (b.map (·.originalName)) = .error m) :
    processBatches call (b :: rest) idx ports cc
      = processBatches call rest (idx + 1)
          (markFailed (b.map (·.originalName)) m (markProcessing (b.map (·.originalName)) ports))
          (cc + b.length) := by
  simp [processBatches, hc]

theorem processBatches_snd
    (call : Nat → List String → Except String (List GeminiPortResponse)) :
    ∀ (bs : List (List PortData)) (idx : Nat) (ports : List PortData) (cc : Nat),
    (processBatches call bs idx ports cc).2 = cc + (bs.map List.length).sum := by
  intro bs
  induction bs with
  | nil => intro idx ports cc; simp [processBatches]
  | cons b rest ih =>
    intro idx ports cc
    cases hc : call idx (b.map (·.originalName)) with
    | ok rs => rw [processBatches_cons_ok call b rest idx ports cc rs hc, ih]; simp; omega
    | error m => rw [processBatches_cons_error call b rest idx ports cc m hc, ih]; simp; omega

theorem toBatchesAux_mem :
    ∀ (fuel : Nat) (l : List PortData) (b : List PortData) (x : PortData),
    b ∈ toBatchesAux fuel l → x ∈ b → x ∈ l := by
  intro fuel
  induction fuel with
  | zero => intro l b x hb; simp [toBatchesAux] at hb
  | succ fuel ih =>
    intro l b x hb hx
    cases l with
    | nil => simp [toBatchesAux] at hb
    | cons a as =>
      simp only [toBatchesAux, List.mem_cons] at hb
      rcases hb with hb | hb
      · exact List.take_subset _ _ (hb ▸ hx)
      · exact List.drop_subset _ _ (ih _ b x hb hx)

theorem toBatches_mem (l b : List PortData) (x : PortData)
    (hb : b ∈ toBatches l) (hx : x ∈ b) : x ∈ l :=
  toBatchesAux_mem l.length l b x hb hx

theorem toBatchesAux_sum :
    ∀ (fuel : Nat) (l : List PortData), l.length ≤ fuel →
    ((toBatchesAux fuel l).map List.length).sum = l.length := by
  intro fuel
  induction fuel with
  | zero =>
    intro l h
    have : l = [] := List.length_eq_zero.mp (Nat.le_zero.mp h)
    simp [this, toBatchesAux]
  | succ fuel ih =>
    intro l h
    cases l with
    | nil => simp [toBatchesAux]
    | cons a as =>
      have hdrop : ((a :: as).drop BATCH_SIZE).length ≤ fuel := by
        simp only [List.length_drop, List.length_cons] at *
        simp only [BATCH_SIZE]
        omega
      simp only [toBatchesAux, List.map_cons, List.sum_cons]
      rw [ih _ hdrop]
      simp only [List.length_take, List.length_drop, List.length_cons, BATCH_SIZE]
      omega

theorem toBatches_sum (l : List PortData) :
    ((toBatches l).map List.length).sum = l.length :=
  toBatchesAux_sum l.length l (Nat.le_refl _)

theorem find?_first {α : Type} (q : α → Bool) :
    ∀ (pre : List α) (m : α) (post : List α),
    (∀ r ∈ pre, q r = false) → q m = true →
    (pre ++ m :: post).find? q = some m := by
  intro pre
  induction pre with
  | nil => intro m post _ hm; simp [List.find?_cons, hm]
  | cons r pre ih =>
    intro m post hpre hm
    have hr : q r = false := hpre r (List.mem_cons_self _ _)
    simp only [List.cons_append, List.find?_cons, hr]
    exact ih m post (fun x hx => hpre x (List.mem_cons_of_mem _ hx)) hm

theorem matchPortsBatch_ok_inv (gc : List String → Except String GenContentResult)
    (pj : String → Option (List RawMatch)) (names : List String)
    (rs : List GeminiPortResponse)
    (hok : matchPortsBatch gc pj names = .ok rs) :
    ∃ resp t results, gc names = .ok resp ∧ resp.text = some t ∧ t ≠ "" ∧
      pj t = some results ∧
      rs = results.map (fun r =>
        { originalName := r.originalName
          portCode := r.portCode
          chineseName := r.chineseName
          countryName := r.countryName
          remarks := r.remarks
          sources := (extractSources resp.groundingChunks).take 3 }) := by
  cases hgc : gc names with
  | error e => simp [matchPortsBatch, hgc] at hok
  | ok resp =>
    simp only [matchPortsBatch, hgc] at hok
    cases htext : resp.text with
    | none => rw [htext] at hok; simp at hok
    | some t =>
      rw [htext] at hok
      dsimp only at hok
      by_cases ht : t = ""
      · simp [ht] at hok
      · rw [if_neg ht] at hok
        cases hpj : pj t with
        | none => rw [hpj] at hok; simp at hok
        | some results =>
          rw [hpj] at hok
          simp only [Except.ok.injEq] at hok
          exact ⟨resp, t, results, rfl, htext, ht, hpj, hok.symm⟩

theorem matchPortsBatch_error_of_badPayload
    (gc : List String → Except String GenContentResult)
    (pj : String → Option (List RawMatch)) (names : List String)
    (resp : GenContentResult)
    (hresp : gc names = .ok resp)
    (hbad : resp.text = none ∨ ∃ t, resp.text = some t ∧ (t = "" ∨ pj t = none)) :
    ∃ m, matchPortsBatch gc pj names = .error m := by
  simp only [matchPortsBatch, hresp]
  rcases hbad with htext | ⟨t, htext, hbad⟩
  · rw [htext]; exact ⟨"Empty response from AI", rfl⟩
  · rw [htext]
    dsimp only
    rcases hbad with ht | hpj
    · simp [ht]
    · by_cases ht : t = ""
      · simp [ht]
      · rw [if_neg ht, hpj]
        exact ⟨"Failed to parse Gemini response", rfl⟩

theorem chunkToSource_some_inv (c : GroundingChunk) (s : PortSource)
    (h : chunkToSource c = some s) : s.uri ≠ "" ∧ s.title ≠ "" := by
  rcases c with ⟨w⟩
  cases w with
  | none => simp [chunkToSource] at h
  | some w =>
    rcases w with ⟨u, t⟩
    cases u with
    | none => simp [chunkToSource] at h
    | some u =>
      simp only [chunkToSource] at h
      by_cases hu : u = ""
      · rw [if_pos hu] at h; cases h
      · rw [if_neg hu] at h
        injection h with h
        subst h
        refine ⟨hu, ?_⟩
        cases t with
        | none => simp
        | some t =>
          by_cases ht : t = ""
          · simp [ht]
          · simp [ht]

theorem processBatches_frame
    (call : Nat → List String → Except String (List GeminiPortResponse)) :
    ∀ (bs : List (List PortData)) (idx : Nat) (ports : List PortData) (cc i : Nat) (p : PortData),
    ports[i]? = some p →
    (∀ b ∈ bs, ∀ q ∈ b, q.originalName ≠ p.originalName) →
    (∀ j ns rs r, call j ns = .ok rs → r ∈ rs →
      lowerName r.originalName ≠ lowerName p.originalName) →
    ((processBatches call bs idx ports cc).1)[i]? = some p := by
  intro bs
  induction bs with
  | nil => intro idx ports cc i p hip _ _; simpa [processBatches] using hip
  | cons b rest ih =>
    intro idx ports cc i p hip hbs horacle
    have hpn : p.originalName ∉ b.map (·.originalName) := by
      simp only [List.mem_map, not_exists]
      rintro q ⟨hq, hqe⟩
      exact hbs b (List.mem_cons_self _ _) q hq hqe
    have h1 : (markProcessing (b.map (·.originalName)) ports)[i]? = some p := by
      simp [markProcessing, List.getElem?_map, hip, procOne_of_not_mem _ _ hpn]
    cases hc : call idx (b.map (·.originalName)) with
    | ok rs =>
      have h2 : (reconcile rs (markProcessing (b.map (·.originalName)) ports))[i]? = some p := by
        simp [reconcile, List.getElem?_map, h1,
          reconcileOne_of_no_match rs p (fun r hr => horacle idx _ rs r hc hr)]
      rw [processBatches_cons_ok call b rest idx ports cc rs hc]
      exact ih (idx + 1) _ _ i p h2 (fun b' hb' => hbs b' (List.mem_cons_of_mem _ hb')) horacle
    | error m =>
      have h2 : (markFailed (b.map (·.originalName)) m
          (markProcessing (b.map (·.originalName)) ports))[i]? = some p := by
        simp [markFailed, List.getElem?_map, h1, failOne_of_not_mem _ _ _ hpn]
      rw [processBatches_cons_error call b rest idx ports cc m hc]
      exact ih (idx + 1) _ _ i p h2 (fun b' hb' => hbs b' (List.mem_cons_of_mem _ hb')) horacle

/-! Claim theorems. -/

/-- C7, counterexample to the claim as stated: with no eligible record
`processPorts` returns before touching the progress state, so a run
started while the progress counters still hold a previous run's values
⟨2, 2⟩ leaves them at ⟨2, 2⟩ — it does not report ⟨0, 0⟩. -/
theorem c7_counterexample :
    (completedLedger.filter eligible).length = 0 ∧
    processPorts alwaysFailCall completedLedger ⟨2, 2⟩ = (completedLedger, ⟨2, 2⟩) ∧
    (processPorts alwaysFailCall completedLedger ⟨2, 2⟩).2 ≠ ⟨0, 0⟩ := by
  decide

/-- C7 (amended): if at run start no record has status Pending or Failed,
the run is a no-op — it does not error, mutates no record, and leaves the
progress counters unchanged (in particular a fresh session still shows
⟨0, 0⟩). -/
theorem c7_noEligible_noop
    (call : Nat → List String → Except String (List GeminiPortResponse))
    (ports : List PortData) (progress : Progress)
    (h : (ports.filter eligible).length = 0) :
    processPorts call ports progress = (ports, progress) := by
  simp [processPorts, h]

/-- C7 witness: the no-op theorem applied to a ledger holding only a
completed record, starting from the fresh ⟨0, 0⟩ progress state. -/
theorem c7_noEligible_noop_witness :
    processPorts alwaysFailCall completedLedger ⟨0, 0⟩ = (completedLedger, ⟨0, 0⟩) :=
  c7_noEligible_noop alwaysFailCall completedLedger ⟨0, 0⟩ (by decide)

/-- C6: for any oracle behaviour `call` (any mix of per-batch successes
and failures), a run over a ledger with at least one eligible record ends
with `processedCount` (and `total`) equal to the number of records that
were Pending or Failed at run start: the counter advances by each batch's
size unconditionally. -/
theorem c6_progressCounts
    (call : Nat → List String → Except String (List GeminiPortResponse))
    (ports : List PortData) (progress : Progress)
    (hne : (ports.filter eligible).length ≠ 0) :
    (processPorts call ports progress).2 =
      ⟨(ports.filter eligible).length, (ports.filter eligible).length⟩ := by
  have hsnd := processBatches_snd call (toBatches (ports.filter eligible)) 0 ports 0
  rw [toBatches_sum] at hsnd
  simp [processPorts, hne, hsnd]

/-- C6 witness: the six-record ledger processed with a failing first
batch and a succeeding second batch still reports six processed
records. -/
theorem c6_progressCounts_witness :
    (processPorts splitCall sixLedger ⟨0, 0⟩).2 =
      ⟨(sixLedger.filter eligible).length, (sixLedger.filter eligible).length⟩ :=
  c6_progressCounts splitCall sixLedger ⟨0, 0⟩ (by decide)

/-- C2, counterexample to the claim as stated: in the six-record run the
eligible snapshot splits into batch 0 (five records) and batch 1 (the
final "p0" record). The oracle call for batch 0 throws "boom" and batch 1
then succeeds with an empty match list, yet the batch-1 record (ledger
index 5) ends the run with its `remarks` field overwritten to "boom" —
batch 0's failure handling altered it, because the catch branch selects
records by `originalName` and both batches contain a "p0". -/
theorem c2_counterexample :
    (toBatches (sixLedger.filter eligible)).length = 2 ∧
    ((toBatches (sixLedger.filter eligible))[1]?).map (List.map (·.originalName))
      = some ["p0"] ∧
    sixLedger[5]?.map (·.remarks) = some "" ∧
    ((processPorts splitCall sixLedger ⟨0, 0⟩).1)[5]?.map (·.remarks) = some "boom" := by
  decide

/-- C2 (amended): a transport failure in batch A alters only records
whose `originalName` is (exactly) among A's batch names; any record —
in particular any record of another batch B — whose `originalName` is
not among A's names keeps all of its status and fields through A's
failure handling. Records with equal `originalName` in different batches
are NOT independent. -/
theorem c2_failureIsolation (ns : List String) (m : String)
    (ports : List PortData) (i : Nat) (p : PortData)
    (hip : ports[i]? = some p) (h : p.originalName ∉ ns) :
    (markFailed ns m ports)[i]? = some p := by
  simp [markFailed, List.getElem?_map, hip, failOne_of_not_mem _ _ _ h]

/-- C2 witness: the failure handling of a batch ["p1", "p2"] leaves a
"p0" record untouched. -/
theorem c2_failureIsolation_witness :
    (markFailed ["p1", "p2"] "boom" sixLedger)[0]? = some (mkRecord "p0" .pending) :=
  c2_failureIsolation ["p1", "p2"] "boom" sixLedger 0 (mkRecord "p0" .pending)
    (by decide) (by decide)

/-- C3: when a batch's oracle call throws, the run continues with the
next batch from the state in which every ledger record whose
`originalName` is among the batch's names — hence every record of the
batch — has been transitioned to Failed with `remarks` overwritten by the
non-empty failure reason `errMsg m`, and with its `portCode`,
`chineseName`, `countryName` and `sources` untouched (the record update
writes only `status` and `remarks`). -/
theorem c3_batchFailure
    (call : Nat → List String → Except String (List GeminiPortResponse))
    (b : List PortData) (rest : List (List PortData)) (idx : Nat)
    (ports : List PortData) (cc : Nat) (m : String)
    (hcall : call idx (b.map (·.originalName)) = .error m) :
    processBatches call (b :: rest) idx ports cc
      = processBatches call rest (idx + 1)
          (markFailed (b.map (·.originalName)) m
            (markProcessing (b.map (·.originalName)) ports)) (cc + b.length)
    ∧ errMsg m ≠ ""
    ∧ (∀ p : PortData, (b.map (·.originalName)).contains p.originalName = true →
        failOne (b.map (·.originalName)) m (procOne (b.map (·.originalName)) p)
          = { p with status := PortStatus.error, remarks := errMsg m })
    ∧ markFailed (b.map (·.originalName)) m (markProcessing (b.map (·.originalName)) ports)
        = ports.map (fun p =>
            failOne (b.map (·.originalName)) m (procOne (b.map (·.originalName)) p)) := by
  refine ⟨processBatches_cons_error call b rest idx ports cc m hcall, ?_, ?_, ?_⟩
  · unfold errMsg
    split
    · decide
    · assumption
  · intro p hp
    have hp2 : (b.map (·.originalName)).contains
        ({ p with status := PortStatus.processing } : PortData).originalName = true := hp
    rw [procOne_of_mem _ _ hp, failOne_of_mem _ _ _ hp2]
  · simp [markFailed, markProcessing, List.map_map, Function.comp]

/-- C3 witness: the batch-failure theorem applied to a one-record batch
and the always-throwing oracle, together with the record-level conjunct
applied to that record. -/
theorem c3_batchFailure_witness :
    processBatches alwaysFailCall [[mkRecord "A" .pending]] 0 [mkRecord "A" .pending] 0
      = processBatches alwaysFailCall [] 1
          (markFailed ["A"] "boom" (markProcessing ["A"] [mkRecord "A" .pending])) (0 + 1)
    ∧ errMsg "boom" ≠ ""
    ∧ failOne ["A"] "boom" (procOne ["A"] (mkRecord "A" .pending))
        = { mkRecord "A" .pending with status := PortStatus.error, remarks := errMsg "boom" } :=
  ⟨(c3_batchFailure alwaysFailCall [mkRecord "A" .pending] [] 0 [mkRecord "A" .pending] 0
      "boom" rfl).1,
   (c3_batchFailure alwaysFailCall [mkRecord "A" .pending] [] 0 [mkRecord "A" .pending] 0
      "boom" rfl).2.1,
   (c3_batchFailure alwaysFailCall [mkRecord "A" .pending] [] 0 [mkRecord "A" .pending] 0
      "boom" rfl).2.2.1 (mkRecord "A" .pending) (by decide)⟩

/-- C5: when a batch's oracle call succeeds with a result list in which a
given batch record's `originalName` has no case-insensitive match, the
run continues with the next batch, and that record — marked 'processing'
at the start of the batch step — is left by reconciliation exactly as
`{ p with status := processing }`: still InFlight, every other field
unchanged, not marked Failed and with no error recorded. -/
theorem c5_unmatchedStaysInFlight
    (call : Nat → List String → Except String (List GeminiPortResponse))
    (b : List PortData) (rest : List (List PortData)) (idx : Nat)
    (ports : List PortData) (cc : Nat) (rs : List GeminiPortResponse) (p : PortData)
    (hcall : call idx (b.map (·.originalName)) = .ok rs)
    (hin : (b.map (·.originalName)).contains p.originalName = true)
    (hnomatch : ∀ r ∈ rs, lowerName r.originalName ≠ lowerName p.originalName) :
    processBatches call (b :: rest) idx ports cc
      = processBatches call rest (idx + 1)
          (reconcile rs (markProcessing (b.map (·.originalName)) ports)) (cc + b.length)
    ∧ reconcileOne rs (procOne (b.map (·.originalName)) p)
        = { p with status := PortStatus.processing } := by
  refine ⟨processBatches_cons_ok call b rest idx ports cc rs hcall, ?_⟩
  rw [procOne_of_mem _ _ hin]
  exact reconcileOne_of_no_match rs _ (fun r hr => hnomatch r hr)

/-- C5 witness: a batch containing "p0" whose oracle call succeeds with
an oracle result naming only "USLAX" leaves the "p0" record InFlight. -/
theorem c5_unmatchedStaysInFlight_witness :
    processBatches (fun _ _ => .ok [otherResp]) [[mkRecord "p0" .pending]] 0
        [mkRecord "p0" .pending] 0
      = processBatches (fun _ _ => .ok [otherResp]) [] 1
          (reconcile [otherResp] (markProcessing ["p0"] [mkRecord "p0" .pending])) (0 + 1)
    ∧ reconcileOne [otherResp] (procOne ["p0"] (mkRecord "p0" .pending))
        = { mkRecord "p0" .pending with status := PortStatus.processing } :=
  c5_unmatchedStaysInFlight (fun _ _ => .ok [otherResp]) [mkRecord "p0" .pending] [] 0
    [mkRecord "p0" .pending] 0 [otherResp] (mkRecord "p0" .pending)
    rfl (by decide) (by decide)

/-- C4: if `m` is the first entry of the oracle result list whose
`originalName` equals the record's case-insensitively (every earlier
entry differs case-insensitively), reconciliation rewrites the record to
exactly `m`'s `portCode`, `chineseName`, `countryName` and `remarks`
(and `m`'s shared source list) with status Completed: the first match in
response order wins, under case-insensitive comparison. -/
theorem c4_firstMatchWins (pre : List GeminiPortResponse) (m : GeminiPortResponse)
    (post : List GeminiPortResponse) (p : PortData)
    (hm : lowerName m.originalName = lowerName p.originalName)
    (hpre : ∀ r ∈ pre, lowerName r.originalName ≠ lowerName p.originalName) :
    reconcileOne (pre ++ m :: post) p
      = { p with portCode := m.portCode, chineseName := m.chineseName,
                 countryName := m.countryName, remarks := m.remarks,
                 sources := some m.sources, status := PortStatus.completed } := by
  have hfind : (pre ++ m :: post).find?
      (fun r => lowerName r.originalName == lowerName p.originalName) = some m := by
    apply find?_first
    · intro r hr
      simpa using hpre r hr
    · simpa using hm
  simp [reconcileOne, hfind]

/-- C4 witness: the pending record "shekou" is matched by the response
entry naming "SHEKOU" (case-insensitively), skipping the earlier
non-matching "USLAX" entry and ignoring the later duplicate "Shekou"
entry: the record receives the first match's fields and completes. -/
theorem c4_firstMatchWins_witness :
    reconcileOne [otherResp, shekouResp, shekouDupResp] (mkRecord "shekou" .pending)
      = { mkRecord "shekou" .pending with
            portCode := shekouResp.portCode, chineseName := shekouResp.chineseName,
            countryName := shekouResp.countryName, remarks := shekouResp.remarks,
            sources := some shekouResp.sources, status := PortStatus.completed } :=
  c4_firstMatchWins [otherResp] shekouResp [shekouDupResp] (mkRecord "shekou" .pending)
    (by decide) (by decide)

/-- C1, counterexample to the claim as stated: the ledger holds a
Completed "A" record (with populated result fields) and a Pending "A"
record. The run's only batch is the pending record, but both the
'processing' transition and — after the oracle call throws — the failure
transition select records by `originalName`, so the Completed record ends
the run with status Failed and its remarks overwritten: a Completed
record sharing an `originalName` with an eligible record is mutated. -/
theorem c1_counterexample :
    dupLedger[0]?.map (·.status) = some PortStatus.completed ∧
    ((processPorts alwaysFailCall dupLedger ⟨0, 0⟩).1)[0]?.map (·.status)
      = some PortStatus.error ∧
    ((processPorts alwaysFailCall dupLedger ⟨0, 0⟩).1)[0]?.map (·.remarks)
      = some "boom" := by
  decide

/-- C1 (amended): a record that is Completed or InFlight at run start
keeps exactly its status and all of its fields at run end, provided its
`originalName` is not (exactly) shared with any record that was Pending
or Failed at start and no match in any oracle response of the run names
it case-insensitively; in particular such Completed records are never
revisited or mutated. When an eligible record shares the `originalName`,
the Completed record can be mutated (duplicate names are not
independent). -/
theorem c1_frameUntouched
    (call : Nat → List String → Except String (List GeminiPortResponse))
    (ports : List PortData) (progress : Progress) (i : Nat) (p : PortData)
    (hip : ports[i]? = some p)
    (_hst : p.status = PortStatus.completed ∨ p.status = PortStatus.processing)
    (hname : ∀ q ∈ ports, eligible q = true → q.originalName ≠ p.originalName)
    (horacle : ∀ j ns rs r, call j ns = Except.ok rs → r ∈ rs →
        lowerName r.originalName ≠ lowerName p.originalName) :
    ((processPorts call ports progress).1)[i]? = some p := by
  by_cases h : (ports.filter eligible).length = 0
  · simp [processPorts, h, hip]
  · simp only [processPorts, if_neg h]
    apply processBatches_frame call (toBatches (ports.filter eligible)) 0 ports 0 i p hip
    · intro b hb q hq
      have hqf : q ∈ ports.filter eligible := toBatches_mem _ b q hb hq
      rw [List.mem_filter] at hqf
      exact hname q hqf.1 hqf.2
    · exact horacle

/-- C1 witness: the frame theorem applied to the Completed record of
`completedLedger` (whose name "B" is shared with no eligible record)
under the always-throwing oracle. -/
theorem c1_frameUntouched_witness :
    ((processPorts alwaysFailCall completedLedger ⟨0, 0⟩).1)[0]?
      = some { mkRecord "B" .completed with portCode := "CNSWA" } :=
  c1_frameUntouched alwaysFailCall completedLedger ⟨0, 0⟩ 0
    { mkRecord "B" .completed with portCode := "CNSWA" }
    (by decide) (Or.inl (by decide)) (by decide)
    (fun j ns rs r h => absurd h (by simp [alwaysFailCall]))

/-- C8: on a successful batch call the shared source list is extracted
once from the raw reply's grounding metadata before reconciliation, and
every returned match carries the identical `take 3` of it (first three
entries in original order, no deduplication or re-ranking); when the
oracle reports 7 sources, every match carries exactly 3; and any record
reconciliation pairs with a match receives exactly that truncated list. -/
theorem c8_sharedSources (gc : List String → Except String GenContentResult)
    (pj : String → Option (List RawMatch)) (names : List String)
    (resp : GenContentResult) (rs : List GeminiPortResponse)
    (hresp : gc names = .ok resp)
    (hok : matchPortsBatch gc pj names = .ok rs) :
    (∀ r ∈ rs, r.sources = (extractSources resp.groundingChunks).take 3)
    ∧ ((extractSources resp.groundingChunks).length = 7 →
        ∀ r ∈ rs, r.sources.length = 3)
    ∧ (∀ (p : PortData) (m : GeminiPortResponse),
        rs.find? (fun r => lowerName r.originalName == lowerName p.originalName) = some m →
        (reconcileOne rs p).sources
          = some ((extractSources resp.groundingChunks).take 3)) := by
  obtain ⟨resp', t, results, hgc', htext, ht, hpj, hrs⟩ :=
    matchPortsBatch_ok_inv gc pj names rs hok
  have hre : resp' = resp := by
    rw [hresp] at hgc'
    exact (Except.ok.inj hgc').symm
  subst hre
  have h1 : ∀ r ∈ rs, r.sources = (extractSources resp'.groundingChunks).take 3 := by
    subst hrs
    intro r hr
    rcases List.mem_map.mp hr with ⟨a, _, rfl⟩
    rfl
  refine ⟨h1, ?_, ?_⟩
  · intro h7 r hr
    rw [h1 r hr]
    simp [List.length_take, h7]
  · intro p m hfind
    have hm := List.mem_of_find?_eq_some hfind
    simp [reconcileOne, hfind, h1 m hm]

/-- C8 witness: the seven-source reply with a one-match payload — the
match carries the three first sources in order, of length exactly 3, and
the reconciled "shekou" record stores exactly that list. -/
theorem c8_sharedSources_witness :
    shekouOk.sources = (extractSources resp8.groundingChunks).take 3
    ∧ shekouOk.sources.length = 3
    ∧ (reconcileOne rs8 (mkRecord "shekou" .pending)).sources
        = some ((extractSources resp8.groundingChunks).take 3) :=
  ⟨(c8_sharedSources sevenGC wPJ ["shekou"] resp8 rs8 rfl rfl).1
      shekouOk (by decide),
   (c8_sharedSources sevenGC wPJ ["shekou"] resp8 rs8 rfl rfl).2.1
      (by decide) shekouOk (by decide),
   (c8_sharedSources sevenGC wPJ ["shekou"] resp8 rs8 rfl rfl).2.2
      (mkRecord "shekou" .pending) shekouOk (by decide)⟩

/-- C9: when the oracle reply's text payload is absent, empty, or fails
to parse, `matchPortsBatch` throws (returns `Except.error`) — it is never
a successful batch with zero matches — and an orchestrator batch call
yielding that error is handled through exactly the same catch path as a
transport-level failure: the batch is marked failed and the run moves to
the next batch. -/
theorem c9_badPayloadIsFailure (gc : List String → Except String GenContentResult)
    (pj : String → Option (List RawMatch)) (names : List String)
    (resp : GenContentResult)
    (hresp : gc names = .ok resp)
    (hbad : resp.text = none ∨ ∃ t, resp.text = some t ∧ (t = "" ∨ pj t = none)) :
    (∃ m, matchPortsBatch gc pj names = .error m)
    ∧ (∀ rs, matchPortsBatch gc pj names ≠ .ok rs)
    ∧ (∀ (call : Nat → List String → Except String (List GeminiPortResponse))
        (b : List PortData) (rest : List (List PortData)) (idx : Nat)
        (ports : List PortData) (cc : Nat) (m : String),
        call idx (b.map (·.originalName)) = Except.error m →
        matchPortsBatch gc pj names = Except.error m →
        processBatches call (b :: rest) idx ports cc
          = processBatches call rest (idx + 1)
              (markFailed (b.map (·.originalName)) m
                (markProcessing (b.map (·.originalName)) ports)) (cc + b.length)) := by
  have he := matchPortsBatch_error_of_badPayload gc pj names resp hresp hbad
  refine ⟨he, ?_, ?_⟩
  · intro rs hok
    rcases he with ⟨m, hm⟩
    rw [hm] at hok
    exact Except.noConfusion hok
  · intro call b rest idx ports cc m hcall _
    exact processBatches_cons_error call b rest idx ports cc m hcall

/-- C9 witness: the reply with an absent text payload makes
`matchPortsBatch` fail (it does not return the empty match list), and an
orchestrator whose batch call is exactly that failing `matchPortsBatch`
marks the batch failed and continues. -/
theorem c9_badPayloadIsFailure_witness :
    matchPortsBatch emptyTextGC wPJ ["A"] ≠ Except.ok []
    ∧ processBatches badCall [[mkRecord "A" .pending]] 0 [mkRecord "A" .pending] 0
        = processBatches badCall [] 1
            (markFailed ["A"] "Empty response from AI"
              (markProcessing ["A"] [mkRecord "A" .pending])) (0 + 1) :=
  ⟨(c9_badPayloadIsFailure emptyTextGC wPJ ["A"]
      { groundingChunks := none, text := none } rfl (Or.inl rfl)).2.1 [],
   (c9_badPayloadIsFailure emptyTextGC wPJ ["A"]
      { groundingChunks := none, text := none } rfl (Or.inl rfl)).2.2
      badCall [mkRecord "A" .pending] [] 0 [mkRecord "A" .pending] 0
      "Empty response from AI" rfl rfl⟩

/-- C10: every source `matchPortsBatch` extracts has a non-empty uri and
a non-empty title; a grounding chunk with no web uri (absent `web`,
absent uri, or empty uri) is skipped entirely; a chunk whose web title is
missing or empty yields the fixed title "Source"; and hence every source
attached to any successfully returned match is well-formed. -/
theorem c10_sourceWellFormed :
    (∀ chunks s, s ∈ extractSources chunks → s.uri ≠ "" ∧ s.title ≠ "")
    ∧ (∀ c : GroundingChunk,
        (c.web = none ∨ ∃ w, c.web = some w ∧ (w.uri = none ∨ w.uri = some "")) →
        chunkToSource c = none)
    ∧ (∀ (w : WebInfo) (u : String), w.uri = some u → u ≠ "" →
        (w.title = none ∨ w.title = some "") →
        chunkToSource { web := some w } = some { uri := u, title := "Source" })
    ∧ (∀ gc pj names rs r s, matchPortsBatch gc pj names = .ok rs → r ∈ rs →
        s ∈ r.sources → s.uri ≠ "" ∧ s.title ≠ "") := by
  have h1 : ∀ chunks s, s ∈ extractSources chunks → s.uri ≠ "" ∧ s.title ≠ "" := by
    intro chunks s hs
    simp only [extractSources] at hs
    rcases List.mem_filterMap.mp hs with ⟨c, _, hcs⟩
    exact chunkToSource_some_inv c s hcs
  refine ⟨h1, ?_, ?_, ?_⟩
  · rintro ⟨w'⟩ (hw | ⟨w, hw, hu | hu⟩)
    · simp only at hw
      subst hw
      rfl
    · simp only at hw
      subst hw
      rcases w with ⟨u, t⟩
      simp only at hu
      subst hu
      rfl
    · simp only at hw
      subst hw
      rcases w with ⟨u, t⟩
      simp only at hu
      subst hu
      simp [chunkToSource]
  · intro w u hu hne ht
    rcases w with ⟨u', t⟩
    simp only at hu
    subst hu
    rcases ht with ht | ht <;> simp only at ht <;> subst ht <;>
      simp [chunkToSource, hne]
  · intro gc pj names rs r s hok hr hs
    obtain ⟨resp, t, results, _, _, _, _, hrs⟩ :=
      matchPortsBatch_ok_inv gc pj names rs hok
    subst hrs
    rcases List.mem_map.mp hr with ⟨a, _, rfl⟩
    exact h1 resp.groundingChunks s (List.take_subset 3 _ hs)

/-- C10 witness: the invariant applied to a concrete extracted source, a
chunk skipped for lack of a uri, and a chunk defaulting its title. -/
theorem c10_sourceWellFormed_witness :
    ({ uri := "https://a", title := "A" } : PortSource).uri ≠ ""
    ∧ ({ uri := "https://a", title := "A" } : PortSource).title ≠ ""
    ∧ chunkToSource { web := some { uri := none, title := some "skipped" } } = none
    ∧ chunkToSource { web := some { uri := some "https://b", title := none } }
        = some { uri := "https://b", title := "Source" } :=
  ⟨(c10_sourceWellFormed.1 (some sevenChunks) { uri := "https://a", title := "A" }
      (by decide)).1,
   (c10_sourceWellFormed.1 (some sevenChunks) { uri := "https://a", title := "A" }
      (by decide)).2,
   c10_sourceWellFormed.2.1 { web := some { uri := none, title := some "skipped" } }
      (Or.inr ⟨{ uri := none, title := some "skipped" }, rfl, Or.inl rfl⟩),
   c10_sourceWellFormed.2.2.1 { uri := some "https://b", title := none } "https://b"
      rfl (by decide) (Or.inl rfl)⟩

end PortAuditor
